import Mathlib

/-!
Verification development for the Sentinel / BobRossRocks browser-extension
repository.  The definitions below are a shallow embedding of the
content-script code: DOM nodes are represented by the fields the scripts
actually read (selector results, innerText values, attribute values),
JavaScript Maps/Sets/Arrays become association lists and lists, and the
scripts' functions become total Lean functions over those views.  The main
subject is the Twitter/X Side Notes content script embedded in the
repository (badge registry, retry set, captured-video-URL queue, network
tap) together with the Sentinel content-script variants.
-/

/-- The JS expression s.substring(0, n): the first n characters of s
(or all of s when it is shorter). -/
def strTake (s : String) (n : Nat) : String :=
  String.mk (s.data.take n)

/-- The JS expression s.trim(): strip leading and trailing whitespace.
Defined over the character list so that it evaluates inside the kernel. -/
def strTrim (s : String) : String :=
  String.mk (((s.data.dropWhile Char.isWhitespace).reverse.dropWhile
    Char.isWhitespace).reverse)

/-- The JS expression s.startsWith(p). -/
def strStartsWith (s p : String) : Bool :=
  List.isPrefixOf p.data s.data

/-- The JS expression s.includes(c) for a one-character needle. -/
def strContainsChar (s : String) (c : Char) : Bool :=
  s.data.contains c

/-- The JS expression s.slice(n): everything after the first n characters. -/
def strDrop (s : String) (n : Nat) : String :=
  String.mk (s.data.drop n)

/-- The JS expression s.toLowerCase(), for the ASCII labels involved. -/
def strLower (s : String) : String :=
  String.mk (s.data.map Char.toLower)

/-- Side-notes truncation helper (README side-notes script):
function truncate(text, max = 220) returns
text.length > max ? text.substring(0, max) + a one-character horizontal
ellipsis : text.  The script always calls it with the default max = 220. -/
def truncate (text : String) : String :=
  if text.length > 220 then strTake text 220 ++ "…" else text

namespace Sentinel

/-- Sentinel content-script truncation helper (unnamed part_001):
function truncate(str, n = 280) returns the empty string on a falsy
argument, and otherwise str.length > n ? str.substr(0, n - 1) + "..." : str.
It is always called with the default n = 280. -/
def truncate (str : String) : String :=
  if str.isEmpty then ""
  else if str.length > 280 then strTake str 279 ++ "..." else str

end Sentinel

/-- The parts of one tweet DOM node read by extractTweetText:
the innerText of the node matched by the canonical selector
for tweet text, if that selector matches, and the innerText values of all
span elements carrying a lang attribute, in document order. -/
structure TweetView where
  tweetTextEl : Option String
  langSpans : List String
deriving DecidableEq

/-- The reduce step of the side-notes fallback: of the qualifying spans,
keep the one whose trimmed text is longest (first one wins ties, as in the
JS reduce). -/
def longestSpan (hd : String) (tl : List String) : String :=
  tl.foldl (fun a b => if (strTrim b).length > (strTrim a).length then b else a) hd

/-- extractTweetText from the README side-notes script: first the canonical
tweet-text container (used when its trimmed innerText is non-empty), then
the longest span[lang] whose trimmed text has length at least 5, else null.
Every returned text passes through truncate. -/
def extractTweetText (v : TweetView) : Option String :=
  let fallback :=
    match v.langSpans.filter (fun el => 5 ≤ (strTrim el).length) with
    | [] => none
    | hd :: tl => some (truncate (strTrim (longestSpan hd tl)))
  match v.tweetTextEl with
  | some raw => if 1 ≤ (strTrim raw).length then some (truncate (strTrim raw)) else fallback
  | none => fallback

/-- The parts of the User-Name identity block read by extractUserInfo:
innerText values of its span descendants in document order, and the href
attribute of the first anchor matched by the selector requiring an href
that starts with "/" (none when no such anchor exists). -/
structure UserNameView where
  spans : List String
  profileLinkHref : Option String
deriving DecidableEq

/-- The pair returned by extractUserInfo. -/
structure AuthorInfo where
  displayName : Option String
  handle : Option String
deriving DecidableEq

/-- The regular expression test t.match(/^\d+[smhd]$/): one or more digits
followed by exactly one of s, m, h, d. -/
def isTimestampPattern (t : String) : Bool :=
  match t.data.getLast? with
  | none => false
  | some c =>
      (c == 's' || c == 'm' || c == 'h' || c == 'd')
        && !t.data.dropLast.isEmpty
        && t.data.dropLast.all Char.isDigit

/-- One iteration of the span loop in extractUserInfo: skip blank spans,
record an at-prefixed span as the handle, and record the first span that is
non-empty, contains no middle-dot separator and does not look like a
timestamp as the display name. -/
def spanStep (acc : AuthorInfo) (t0 : String) : AuthorInfo :=
  let t := strTrim t0
  if t = "" then acc
  else if strStartsWith t "@" then { acc with handle := some t }
  else if acc.displayName = none ∧ 0 < t.length ∧ strContainsChar t '·' = false
      ∧ isTimestampPattern t = false then
    { acc with displayName := some t }
  else acc

/-- extractUserInfo from the side-notes script: nulls when the User-Name
block is absent; otherwise classify the spans, and when no at-prefixed span
was found derive the handle from the profile link path by prepending the
at sign. -/
def extractUserInfo (v : Option UserNameView) : AuthorInfo :=
  match v with
  | none => { displayName := none, handle := none }
  | some u =>
    let acc := u.spans.foldl spanStep { displayName := none, handle := none }
    if acc.handle = none then
      match u.profileLinkHref with
      | some href =>
          if strStartsWith href "/" ∧ strContainsChar href '?' = false then
            { acc with handle := some ("@" ++ strDrop href 1) }
          else acc
      | none => acc
    else acc

/-- Substring helper: JS includes over lists of characters. -/
def hasSub (pat : List Char) : List Char → Bool
  | [] => List.isPrefixOf pat []
  | c :: cs => List.isPrefixOf pat (c :: cs) || hasSub pat cs

/-- The JS expression s.includes(pat). -/
def containsSubstr (s pat : String) : Bool :=
  hasSub pat.data s.data

/-- Character class of the views regex: digits, comma, K, k, M, m, dot. -/
def viewsClassChar (c : Char) : Bool :=
  c.isDigit || c == ',' || c == 'K' || c == 'k' || c == 'M' || c == 'm' || c == '.'

/-- First capture of aria.match with the views pattern: the leftmost
maximal run of viewsClassChar characters that is followed by optional
whitespace and then view (either capitalisation).  Maximal-munch is exact
here because no character of the class or of the literal is whitespace. -/
def matchViewsCapture : List Char → Option (List Char)
  | [] => none
  | c :: cs =>
      let run := (c :: cs).takeWhile viewsClassChar
      if run.isEmpty then matchViewsCapture cs
      else
        match ((c :: cs).drop run.length).dropWhile Char.isWhitespace with
        | 'v' :: 'i' :: 'e' :: 'w' :: _ => some run
        | 'V' :: 'i' :: 'e' :: 'w' :: _ => some run
        | _ => matchViewsCapture cs

/-- First capture of aria.match with the digits-or-commas pattern: the
leftmost maximal run of digits and commas. -/
def digitsCommaRun : List Char → Option (List Char)
  | [] => none
  | c :: cs =>
      if c.isDigit || c == ',' then
        some ((c :: cs).takeWhile (fun x => x.isDigit || x == ','))
      else digitsCommaRun cs

/-- The view of one action-bar counter button: none when the button is
absent; otherwise the innerText of its transition-container count element,
when that child exists. -/
def CounterView : Type := Option (Option String)

/-- The analytics link read by the views branch of extractMetrics:
its aria-label attribute (none when the attribute is absent) and its
innerText. -/
structure AnalyticsLinkView where
  ariaLabel : Option String
  innerText : String
deriving DecidableEq

/-- The parts of a tweet node read by extractMetrics: the four counter
buttons, the analytics link, and — for the fallback — the aria-labels of
the anchor and button elements inside the role-group action bar (none when
the action bar itself is absent). -/
structure MetricsView where
  replyCount : CounterView
  retweetCount : CounterView
  likeCount : CounterView
  bookmarkCount : CounterView
  analyticsLink : Option AnalyticsLinkView
  actionGroup : Option (List (Option String))

/-- The mapping built by extractMetrics; a missing field models a key that
was never assigned. -/
structure Metrics where
  comments : Option String
  reposts : Option String
  likes : Option String
  views : Option String
  bookmarks : Option String
deriving DecidableEq

/-- The per-counter assignment of extractMetrics: skipped when the button
is absent, and otherwise the trimmed count text, with the string 0
substituted when the count element is missing. -/
def counterValue (c : CounterView) : Option String :=
  match c with
  | none => none
  | some cnt =>
      some (match cnt with
            | some s => strTrim s
            | none => "0")

/-- extractMetrics from the side-notes script: reply, retweet, like and
bookmark counters read from their count containers (with the string 0 when
the container is missing), and views taken from the analytics link
aria-label via the views regex, else from the link text, else from the
first role-group control whose lowercased aria-label mentions view. -/
def extractMetrics (v : MetricsView) : Metrics :=
  let views0 : Option String :=
    match v.analyticsLink with
    | none => none
    | some al =>
        let aria := al.ariaLabel.getD ""
        match matchViewsCapture aria.data with
        | some run => some (String.mk run)
        | none =>
            let viewText := strTrim al.innerText
            if viewText = "" then none else some viewText
  let views :=
    match views0 with
    | some w => some w
    | none =>
        match v.actionGroup with
        | none => none
        | some labels =>
            labels.foldl (fun acc lab =>
              match acc with
              | some w => some w
              | none =>
                  let aria := strLower (lab.getD "")
                  if containsSubstr aria "view" then
                    match digitsCommaRun aria.data with
                    | some run => some (String.mk run)
                    | none => none
                  else none) none
  { comments := counterValue v.replyCount
    reposts := counterValue v.retweetCount
    likes := counterValue v.likeCount
    views := views
    bookmarks := counterValue v.bookmarkCount }

/-- The metric list rendered by updateBadgeContent: label/value pairs in
display order, filtered by the badge filter that drops missing, zero and
empty display values. -/
def metricItems (m : Metrics) : List (String × String) :=
  [("Replies", m.comments), ("Reposts", m.reposts), ("Likes", m.likes),
   ("Views", m.views), ("Bookmarks", m.bookmarks)].filterMap
    (fun it =>
      match it.2 with
      | some v => if v ≠ "" ∧ v ≠ "0" ∧ v ≠ "" then some (it.1, v) else none
      | none => none)

/-- The JS expression url.split with a question mark, index 0: the prefix
of the URL before its query string. -/
def canonicalize (url : String) : String :=
  String.mk (url.data.takeWhile (fun c => c ≠ '?'))

/-- One entry of the interceptor store of captured video URLs: the full
URL and its canonical (query-stripped) form.  The timestamp field of the
source is never read and is omitted. -/
structure CapturedVid where
  url : String
  clean : String
deriving DecidableEq

/-- The enqueue step of the interceptor: skip when an entry with the same
canonical form is already stored, otherwise append and, when the store then
exceeds 100 entries, shift the oldest entry off the front. -/
def brVidsPush (vids : List CapturedVid) (best : String) : List CapturedVid :=
  let clean := canonicalize best
  if vids.any (fun v => v.clean == clean) then vids
  else
    let vids := vids ++ [{ url := best, clean := clean }]
    if vids.length > 100 then vids.drop 1 else vids

/-- JSON values as delivered to the interceptor walk.  Numbers are modelled
as integers, which covers the bitrate fields the walk compares. -/
inductive JVal where
  | null
  | bool (b : Bool)
  | num (n : Int)
  | str (s : String)
  | arr (elems : List JVal)
  | obj (fields : List (String × JVal))

/-- JS property access j.key: a field of an object, and undefined (none)
on every other value. -/
def jGet (j : JVal) (key : String) : Option JVal :=
  match j with
  | .obj fs => fs.lookup key
  | _ => none

/-- JS truthiness of a JSON value. -/
def jTruthy : JVal → Bool
  | .null => false
  | .bool b => b
  | .num n => n ≠ 0
  | .str s => s ≠ ""
  | .arr _ => true
  | .obj _ => true

/-- The sort key of the variant sort: the bitrate field, with 0 substituted
for a missing or falsy bitrate. -/
def vBitrate (v : JVal) : Int :=
  match jGet v "bitrate" with
  | some (.num n) => n
  | _ => 0

/-- The video-info branch of the interceptor walk: when the node has a
truthy video_info whose variants field is an array, filter the variants to
mp4 entries with a truthy url, stable-sort them by descending bitrate, and
enqueue the best URL.  A variant url that is truthy but not a string would
throw inside the tap in JS (the throw is swallowed); it enqueues nothing
here, and never occurs in the API data the tap reads. -/
def pushFromVideoInfo (j : JVal) (vids : List CapturedVid) : List CapturedVid :=
  match jGet j "video_info" with
  | some vi =>
      if jTruthy vi then
        match jGet vi "variants" with
        | some (.arr variants) =>
            let mp4s := variants.filter (fun v =>
              (match jGet v "content_type" with
               | some (.str s) => s == "video/mp4"
               | _ => false)
              && (match jGet v "url" with
                  | some u => jTruthy u
                  | none => false))
            match mp4s.mergeSort (fun a b => decide (vBitrate b ≤ vBitrate a)) with
            | best :: _ =>
                match jGet best "url" with
                | some (.str s) => brVidsPush vids s
                | _ => vids
            | [] => vids
        | _ => vids
      else vids
  | none => vids

/-- extractVideoUrls from interceptor.js: ignore primitives, run the
video-info enqueue on objects, then recurse into every array element and
into every object-typed field value, threading the captured store. -/
def extractVideoUrlsWalk : JVal → List CapturedVid → List CapturedVid
  | .obj fields, vids => walkFields fields (pushFromVideoInfo (.obj fields) vids)
  | .arr elems, vids => walkElems elems vids
  | _, vids => vids
where
  /-- Object.keys loop of the walk: recurse into object and array values. -/
  walkFields : List (String × JVal) → List CapturedVid → List CapturedVid
    | [], vids => vids
    | (_, v) :: rest, vids =>
        let vids :=
          match v with
          | .obj _ => extractVideoUrlsWalk v vids
          | .arr _ => extractVideoUrlsWalk v vids
          | _ => vids
        walkFields rest vids
  /-- Array loop of the walk: recurse into every element. -/
  walkElems : List JVal → List CapturedVid → List CapturedVid
    | [], vids => vids
    | e :: rest, vids => walkElems rest (extractVideoUrlsWalk e vids)

/-- An opaque reason for a failed network operation (a rejected fetch, or
an XHR that never fires load). -/
inductive NetErr where
  | fail
deriving DecidableEq

/-- The response object a fetch resolves with.  The body field is the
result of reading the (cloned) body as JSON: none models a body whose JSON
parse rejects.  The host page receives this object itself. -/
structure FetchResponse where
  body : Option JVal

/-- The first fetch argument: a URL string, a Request-like object with an
optional url property, or anything else (for which the optional chain in
the tap yields the empty string). -/
inductive FetchInput where
  | strUrl (u : String)
  | request (u : Option String)
  | other

/-- The URL the tap computes from the first fetch argument. -/
def fetchInputUrl : FetchInput → String
  | .strUrl u => u
  | .request (some u) => u
  | .request none => ""
  | .other => ""

/-- The API-path test of the tap, applied to both fetch and XHR URLs. -/
def matchesApiUrl (url : String) : Bool :=
  containsSubstr url "/graphql/" || containsSubstr url "/i/api/"

/-- The patched window.fetch: perform the real fetch; on rejection,
rethrow it untouched (the tap never ran); on success, when the URL matches
the API pattern, read the cloned body as JSON and feed it to the walk —
a failed clone read is swallowed by the attached catch — and in every case
return the real response object.  The pair is the page-visible result
together with the updated captured-URL store. -/
def wrappedFetch (origFetch : FetchInput → Except NetErr FetchResponse)
    (vids : List CapturedVid) (input : FetchInput) :
    Except NetErr FetchResponse × List CapturedVid :=
  match origFetch input with
  | .error e => (.error e, vids)
  | .ok response =>
      let vids' :=
        if matchesApiUrl (fetchInputUrl input) then
          match response.body with
          | some json => extractVideoUrlsWalk json vids
          | none => vids
        else vids
      (.ok response, vids')

/-- The XHR expando recorded by the patched open: the url argument of the
last open call. -/
structure XhrState where
  brUrl : Option String

/-- The patched XMLHttpRequest open: record the URL on the request and
perform the real open. -/
def xhrOpen (_st : XhrState) (url : String) : XhrState :=
  { brUrl := some url }

/-- The patched XMLHttpRequest send: when the recorded URL matches the API
pattern, attach a load listener that parses responseText as JSON inside a
try/catch (a parse failure is swallowed) and feeds it to the walk; then
perform the real send.  The page-visible outcome of the request — load with
a body whose parse result is the given option, or failure — is the first
component and is the real outcome unchanged. -/
def wrappedXhrSend (origSend : Except NetErr (Option JVal))
    (vids : List CapturedVid) (st : XhrState) :
    Except NetErr (Option JVal) × List CapturedVid :=
  let vids' :=
    match st.brUrl with
    | some u =>
        if matchesApiUrl u then
          match origSend with
          | .ok (some json) => extractVideoUrlsWalk json vids
          | _ => vids
        else vids
    | none => vids
  (origSend, vids')

/-- The mutable state of the isolated-world video machinery: the
capturedVideoUrls array filled by the custom-event listener, and the
per-tweet video-URL expando assignments, keyed by node identity. -/
structure VideoState where
  captured : List String
  assigned : List (Nat × String)
deriving DecidableEq

/-- The custom-event listener of the side-notes script: append the
delivered URL to capturedVideoUrls (the listener then re-drives a scan). -/
def onBrVideoEvent (st : VideoState) (url : String) : VideoState :=
  { st with captured := st.captured ++ [url] }

/-- The parts of a tweet node read by extractVideoUrl: whether a video
player or video element is present, and the node identity carrying the
expando. -/
structure VideoNodeView where
  hasVideoPlayer : Bool
  id : Nat
deriving DecidableEq

/-- extractVideoUrl from the side-notes script: null without a video
indicator; the previously assigned URL when the expando is set; otherwise
claim the oldest captured URL by dequeueing it and record it on the node;
null when the queue is empty. -/
def extractVideoUrl (v : VideoNodeView) (st : VideoState) :
    Option String × VideoState :=
  if v.hasVideoPlayer = false then (none, st)
  else
    match st.assigned.lookup v.id with
    | some u => (some u, st)
    | none =>
        match st.captured with
        | [] => (none, st)
        | u :: rest =>
            (some u, { captured := rest, assigned := st.assigned ++ [(v.id, u)] })

/-- Folding extractVideoUrl claims over a list of video-bearing nodes, in
scan order, keeping only the resulting state. -/
def claimMany (nodes : List Nat) (st : VideoState) : VideoState :=
  nodes.foldl (fun s n => (extractVideoUrl { hasVideoPlayer := true, id := n } s).2) st

namespace Sentinel

/-- The JS expression a || dflt on an optional string: the default replaces
both a missing and an empty string. -/
def orDefault (a : Option String) (dflt : String) : String :=
  match a with
  | some s => if s = "" then dflt else s
  | none => dflt

/-- The record analyzeTweet resolves with.  Backend responses are modelled
with the same shape; fields of backend responses not constructed by the
fallback are irrelevant to the claims and omitted. -/
structure AnalysisRecord where
  risk_level : String
  trust_score : Nat
  reasoning_summary : String
  explanation : String
  confidence : ℚ
  recommendation : Option String
deriving DecidableEq

/-- The response the backend fetch resolves with: the ok flag and the
parsed JSON body (none models a body whose JSON parse rejects). -/
structure BackendHttpResponse where
  ok : Bool
  body : Option AnalysisRecord

/-- The fallback record built in the catch block of analyzeTweet: fixed
medium risk, trust score 50, and a summary quoting the first 50 characters
of the submitted text. -/
def analyzeTweetFallback (text : String) (handle : Option String) : AnalysisRecord :=
  { risk_level := "medium"
    trust_score := 50
    reasoning_summary :=
      "Neural link interrupted for @" ++ orDefault handle "user"
        ++ ". Using heuristic fallback for: \"" ++ strTake text 50 ++ "...\""
    explanation := "Connectivity issue with the Sentinel Central Intelligence."
    confidence := (1 : ℚ) / 2
    recommendation := some "Flag for review" }

/-- analyzeTweet from the Sentinel content scripts: POST the payload to the
backend; a rejected fetch, a response with ok false (the thrown error), or
a body whose JSON parse rejects all land in the catch block and resolve
with the fallback record; a successful response resolves with its parsed
body.  The argument resp is the outcome of the fetch (none models a
rejected fetch). -/
def analyzeTweet (resp : Option BackendHttpResponse) (text : String)
    (handle : Option String) : AnalysisRecord :=
  match resp with
  | none => analyzeTweetFallback text handle
  | some r =>
      if r.ok = false then analyzeTweetFallback text handle
      else
        match r.body with
        | some record => record
        | none => analyzeTweetFallback text handle

end Sentinel

/-- A snapshot of the live document as the side-notes script observes it:
the top-level tweet elements in document order, each with the view its
extraction reads.  Node identity is reference identity, modelled by a
natural number.  A tweet node is contained in the document exactly when it
occurs in this snapshot. -/
structure Document where
  tweets : List (Nat × TweetView)

/-- getTopLevelTweets: the top-level tweet nodes in document order. -/
def getTopLevelTweets (doc : Document) : List Nat :=
  doc.tweets.map Prod.fst

/-- The extraction view of a node in this document (an arbitrary empty view
for a node that is not present; extraction on it yields null). -/
def docView (doc : Document) (n : Nat) : TweetView :=
  (doc.tweets.lookup n).getD { tweetTextEl := none, langSpans := [] }

/-- The test document.body.contains(tweet) for a tweet node. -/
def docContains (doc : Document) (n : Nat) : Bool :=
  decide (n ∈ doc.tweets.map Prod.fst)

/-- JS Set.add: append the element when it is not yet present. -/
def setInsert (x : Nat) (s : List Nat) : List Nat :=
  if x ∈ s then s else s ++ [x]

/-- The mutable global state of the side-notes script: the toggle flag, the
badges map from tweet node to its badge element (insertion order), the
pendingRetry set (insertion order), the badge elements currently attached
to document.body, and a fresh-identity counter for newly created badge
elements. -/
structure ScanState where
  enabled : Bool
  badges : List (Nat × Nat)
  pending : List Nat
  overlays : List Nat
  nextId : Nat
deriving DecidableEq

/-- createBadge from the README side-notes script: no-op when tagging is
disabled; for an already-mapped tweet only re-render the existing badge
element via updateBadgeContent (registry, retry set and attached elements
unchanged — in particular the tweet is not removed from pendingRetry);
for an unmapped tweet with no extracted text, add it to pendingRetry;
otherwise create a fresh badge element, append it to document.body and
record the mapping. -/
def createBadge (doc : Document) (st : ScanState) (tweet : Nat) : ScanState :=
  if st.enabled = false then st
  else
    match st.badges.lookup tweet with
    | some _ => st
    | none =>
        match extractTweetText (docView doc tweet) with
        | none => { st with pending := setInsert tweet st.pending }
        | some _ =>
            { st with
              badges := st.badges ++ [(tweet, st.nextId)]
              overlays := st.overlays ++ [st.nextId]
              nextId := st.nextId + 1 }

/-- The body of the pendingRetry.forEach loop in scanTweets: retry a
still-contained tweet, delete a tweet confirmed gone from the document. -/
def pendingStep (doc : Document) (s : ScanState) (t : Nat) : ScanState :=
  if docContains doc t then createBadge doc s t
  else { s with pending := s.pending.erase t }

/-- scanTweets from the README side-notes script: no-op when tagging is
disabled; otherwise run createBadge over every top-level tweet in document
order, then, when pendingRetry is non-empty, run the retry loop over its
elements. -/
def scanTweets (doc : Document) (st : ScanState) : ScanState :=
  if st.enabled = false then st
  else
    let st1 := (getTopLevelTweets doc).foldl (createBadge doc) st
    if st1.pending.length > 0 then st1.pending.foldl (pendingStep doc) st1
    else st1

/-- The body of the badges.forEach loop in updatePositions: when the
tracked tweet is no longer contained in the document, remove its badge
element from the document and delete its mapping; otherwise reposition it
(a screen-coordinate update with no observable registry effect). -/
def updStep (doc : Document) (s : ScanState) (p : Nat × Nat) : ScanState :=
  if docContains doc p.1 = false then
    { s with
      badges := s.badges.filter (fun q => q.1 ≠ p.1)
      overlays := s.overlays.erase p.2 }
  else s

/-- updatePositions from the README side-notes script: run the
removal-or-reposition step over every tracked tweet. -/
def updatePositions (doc : Document) (st : ScanState) : ScanState :=
  st.badges.foldl (updStep doc) st

/-- The mutation-observer callback installed by waitForTimeline: one scan
pass followed by the position-update and eviction sweep. -/
def mutationCallback (doc : Document) (st : ScanState) : ScanState :=
  updatePositions doc (scanTweets doc st)

lemma string_eq_empty_iff (s : String) : s = "" ↔ s.data = [] := by
  constructor
  · intro h; rw [h]
  · intro h; cases s; simp_all

lemma string_length_mk (l : List Char) : (String.mk l).length = l.length := rfl

lemma strTake_length (s : String) (n : Nat) :
    (strTake s n).length = min n s.length := by
  show (s.data.take n).length = min n s.data.length
  simp [List.length_take]

lemma truncate_length_le (s : String) : (truncate s).length ≤ 221 := by
  unfold truncate
  split
  · rw [String.length_append, strTake_length]
    have h1 : ("…" : String).length = 1 := rfl
    omega
  · omega

lemma truncate_ne_empty (s : String) (h : s ≠ "") : truncate s ≠ "" := by
  unfold truncate
  split
  · intro he
    have hlen := congrArg String.length he
    rw [String.length_append, strTake_length] at hlen
    have h1 : ("…" : String).length = 1 := rfl
    have h0 : ("" : String).length = 0 := rfl
    omega
  · exact h

lemma ne_empty_of_length_pos {s : String} (h : 0 < s.length) : s ≠ "" := by
  intro he
  rw [he] at h
  exact absurd h (by decide)

lemma longestSpan_mem (hd : String) (tl : List String) :
    longestSpan hd tl ∈ hd :: tl := by
  unfold longestSpan
  induction tl generalizing hd with
  | nil => simp
  | cons c cs ih =>
      simp only [List.foldl_cons]
      rcases List.mem_cons.mp
        (ih (if (strTrim c).length > (strTrim hd).length then c else hd)) with h | h
      · rw [h]
        split
        · simp
        · simp
      · simp [h]

lemma extractTweetText_shape (v : TweetView) (res : String)
    (h : extractTweetText v = some res) :
    res ≠ "" ∧ res.length ≤ 221 := by
  unfold extractTweetText at h
  have fb : ∀ hd tl,
      v.langSpans.filter (fun el => 5 ≤ (strTrim el).length) = hd :: tl →
      truncate (strTrim (longestSpan hd tl)) = res →
      res ≠ "" ∧ res.length ≤ 221 := by
    intro hd tl hfil hres
    have hmem : longestSpan hd tl
        ∈ v.langSpans.filter (fun el => 5 ≤ (strTrim el).length) := by
      rw [hfil]; exact longestSpan_mem hd tl
    have hlen : 5 ≤ (strTrim (longestSpan hd tl)).length := by
      have := List.of_mem_filter hmem
      simpa using this
    have hne : strTrim (longestSpan hd tl) ≠ "" := ne_empty_of_length_pos (by omega)
    subst hres
    exact ⟨truncate_ne_empty _ hne, truncate_length_le _⟩
  rcases hv : v.tweetTextEl with _ | raw
  · rw [hv] at h
    simp only at h
    rcases hfil : v.langSpans.filter (fun el => 5 ≤ (strTrim el).length) with _ | ⟨hd, tl⟩
    · rw [hfil] at h; simp at h
    · rw [hfil] at h
      simp only [Option.some.injEq] at h
      exact fb hd tl hfil h
  · rw [hv] at h
    simp only at h
    by_cases hc : 1 ≤ (strTrim raw).length
    · rw [if_pos hc] at h
      simp only [Option.some.injEq] at h
      subst h
      have hne : strTrim raw ≠ "" := ne_empty_of_length_pos (by omega)
      exact ⟨truncate_ne_empty _ hne, truncate_length_le _⟩
    · rw [if_neg hc] at h
      rcases hfil : v.langSpans.filter (fun el => 5 ≤ (strTrim el).length) with _ | ⟨hd, tl⟩
      · rw [hfil] at h; simp at h
      · rw [hfil] at h
        simp only [Option.some.injEq] at h
        exact fb hd tl hfil h

lemma isEmpty_false_of_ne (s : String) (h : s ≠ "") : s.isEmpty = false := by
  rw [Bool.eq_false_iff]
  intro hb
  exact h ((String.isEmpty_iff s).mp hb)

set_option maxRecDepth 8000 in
/-- C5 counterexample: the Sentinel variant of the truncation function
(unnamed part_001) returns a 230-character input unmodified, so the claim
that every input longer than 220 characters comes back as a 220-character
prefix plus one ellipsis character — and that every returned text has at
most 221 characters — is false for it. -/
theorem c5_truncation_counterexample :
    Sentinel.truncate (String.mk (List.replicate 230 'a'))
      = String.mk (List.replicate 230 'a')
    ∧ (Sentinel.truncate (String.mk (List.replicate 230 'a'))).length = 230
    ∧ ¬ (Sentinel.truncate (String.mk (List.replicate 230 'a'))).length ≤ 221 := by
  refine ⟨by decide, by decide, by decide⟩

/-- C5 amended: the side-notes truncation function returns the
220-character prefix plus a single ellipsis character (221 characters in
all) for inputs longer than 220 characters and shorter inputs unmodified,
and every text the side-notes extractor returns is either null or a
non-empty string of at most 221 characters; the Sentinel-variant
truncation function instead truncates at threshold 280, to a 279-character
prefix plus a three-character dot marker, returning non-empty inputs of at
most 280 characters unmodified. -/
theorem c5_truncation_amended :
    (∀ s : String, 220 < s.length →
      truncate s = strTake s 220 ++ "…" ∧ (truncate s).length = 221)
    ∧ (∀ s : String, s.length ≤ 220 → truncate s = s)
    ∧ (∀ (v : TweetView) (res : String),
        extractTweetText v = some res → res ≠ "" ∧ res.length ≤ 221)
    ∧ (∀ s : String, 280 < s.length → Sentinel.truncate s = strTake s 279 ++ "...")
    ∧ (∀ s : String, s ≠ "" → s.length ≤ 280 → Sentinel.truncate s = s) := by
  refine ⟨?_, ?_, ?_, ?_, ?_⟩
  · intro s h
    have heq : truncate s = strTake s 220 ++ "…" := by
      unfold truncate
      rw [if_pos h]
    refine ⟨heq, ?_⟩
    rw [heq, String.length_append, strTake_length]
    have h1 : ("…" : String).length = 1 := rfl
    omega
  · intro s h
    unfold truncate
    rw [if_neg (by omega)]
  · exact extractTweetText_shape
  · intro s h
    have hne : s ≠ "" := ne_empty_of_length_pos (by omega)
    unfold Sentinel.truncate
    rw [isEmpty_false_of_ne s hne]
    simp only [Bool.false_eq_true, if_false]
    rw [if_pos h]
  · intro s hne h
    unfold Sentinel.truncate
    rw [isEmpty_false_of_ne s hne]
    simp only [Bool.false_eq_true, if_false]
    rw [if_neg (by omega)]

set_option maxRecDepth 8000 in
/-- C5 witness: the amended truncation facts evaluated at concrete inputs
of lengths 221, 100 and 281. -/
theorem c5_truncation_witness :
    (220 < (String.mk (List.replicate 221 'b')).length
      ∧ truncate (String.mk (List.replicate 221 'b'))
          = strTake (String.mk (List.replicate 221 'b')) 220 ++ "…")
    ∧ ((String.mk (List.replicate 100 'b')).length ≤ 220
      ∧ truncate (String.mk (List.replicate 100 'b')) = String.mk (List.replicate 100 'b'))
    ∧ (280 < (String.mk (List.replicate 281 'b')).length
      ∧ Sentinel.truncate (String.mk (List.replicate 281 'b'))
          = strTake (String.mk (List.replicate 281 'b')) 279 ++ "...") :=
  ⟨⟨by decide, (c5_truncation_amended.1 (String.mk (List.replicate 221 'b')) (by decide)).1⟩,
   ⟨by decide, c5_truncation_amended.2.1 (String.mk (List.replicate 100 'b')) (by decide)⟩,
   ⟨by decide, c5_truncation_amended.2.2.2.1 (String.mk (List.replicate 281 'b')) (by decide)⟩⟩

/-- C6 counterexample: two tweet nodes whose canonical text container
matches with blank (whitespace-only) text but whose lang spans differ get
different extraction results — on the first the longest-span fallback is
consulted and supplies the text — so the extraction result is not
determined by the canonical container alone. -/
theorem c6_precedence_counterexample :
    extractTweetText { tweetTextEl := some "   ", langSpans := ["hello"] } = some "hello"
    ∧ extractTweetText { tweetTextEl := some "   ", langSpans := [] } = none := by
  refine ⟨by decide, by decide⟩

/-- C6 amended: whenever the canonical text container matches and its
trimmed text is non-empty, the extractor returns the truncated trimmed
container text and the fallback is never consulted — the result is
independent of the lang spans; when the container text is blank the
fallback is consulted. -/
theorem c6_precedence_amended (raw : String) (spans spans' : List String)
    (h : 1 ≤ (strTrim raw).length) :
    extractTweetText { tweetTextEl := some raw, langSpans := spans }
      = some (truncate (strTrim raw))
    ∧ extractTweetText { tweetTextEl := some raw, langSpans := spans }
      = extractTweetText { tweetTextEl := some raw, langSpans := spans' } := by
  constructor
  · unfold extractTweetText
    simp only
    rw [if_pos h]
  · unfold extractTweetText
    simp only
    rw [if_pos h, if_pos h]

/-- C6 witness: the amended precedence facts at a concrete node whose
canonical container text is non-blank and whose spans would otherwise
supply different text. -/
theorem c6_precedence_witness :
    1 ≤ (strTrim "hi there").length
    ∧ extractTweetText { tweetTextEl := some "hi there", langSpans := ["longer span text"] }
        = some (truncate (strTrim "hi there"))
    ∧ extractTweetText { tweetTextEl := some "hi there", langSpans := ["longer span text"] }
        = extractTweetText { tweetTextEl := some "hi there", langSpans := [] } :=
  ⟨by decide,
   (c6_precedence_amended "hi there" ["longer span text"] [] (by decide)).1,
   (c6_precedence_amended "hi there" ["longer span text"] [] (by decide)).2⟩

lemma foldl_preserve {α β : Type} {P : β → Prop} (f : β → α → β)
    (hf : ∀ b a, P b → P (f b a)) :
    ∀ (l : List α) (b : β), P b → P (l.foldl f b) := by
  intro l
  induction l with
  | nil => intro b hb; exact hb
  | cons c cs ih => intro b hb; exact ih _ (hf b c hb)

lemma foldl_preserve_mem {α β : Type} {P : β → Prop} (f : β → α → β) :
    ∀ (l : List α) (b : β), (∀ b' a, a ∈ l → P b' → P (f b' a)) →
      P b → P (l.foldl f b) := by
  intro l
  induction l with
  | nil => intro b _ hb; exact hb
  | cons c cs ih =>
      intro b hf hb
      exact ih _ (fun b' a ha => hf b' a (List.mem_cons_of_mem c ha))
        (hf b c (List.mem_cons_self c cs) hb)

lemma spanStep_eq (acc : AuthorInfo) (t0 : String) :
    spanStep acc t0 =
      (if strTrim t0 = "" then acc
       else if strStartsWith (strTrim t0) "@" then
         { acc with handle := some (strTrim t0) }
       else if acc.displayName = none ∧ 0 < (strTrim t0).length
           ∧ strContainsChar (strTrim t0) '·' = false
           ∧ isTimestampPattern (strTrim t0) = false then
         { acc with displayName := some (strTrim t0) }
       else acc) := rfl

lemma strStartsWith_at (rest : String) :
    strStartsWith ("@" ++ rest) "@" = true := by
  simp [strStartsWith, String.data_append, List.isPrefixOf]

/-- C9: whenever the backend call rejects, or responds with a non-success
status (ok false), analyzeTweet resolves — it is a total function of the
outcome rather than a raised exception — with a record whose risk_level is
medium, whose trust_score is 50, and whose reasoning_summary contains the
first 50 characters of the submitted post text. -/
theorem c9_backend_fallback (resp : Option Sentinel.BackendHttpResponse)
    (text : String) (handle : Option String)
    (h : resp = none ∨ ∃ r, resp = some r ∧ r.ok = false) :
    (Sentinel.analyzeTweet resp text handle).risk_level = "medium"
    ∧ (Sentinel.analyzeTweet resp text handle).trust_score = 50
    ∧ ∃ pre post, (Sentinel.analyzeTweet resp text handle).reasoning_summary
        = pre ++ strTake text 50 ++ post := by
  have hfb : Sentinel.analyzeTweet resp text handle
      = Sentinel.analyzeTweetFallback text handle := by
    rcases h with h | ⟨r, hr, hok⟩
    · rw [h]; rfl
    · rw [hr]
      unfold Sentinel.analyzeTweet
      simp [hok]
  rw [hfb]
  exact ⟨rfl, rfl,
    "Neural link interrupted for @" ++ Sentinel.orDefault handle "user"
      ++ ". Using heuristic fallback for: \"", "...\"", rfl⟩

/-- C9 witness: the fallback facts at a rejected fetch and at a
non-success response, for a concrete text and handle. -/
theorem c9_backend_fallback_witness :
    ((Sentinel.analyzeTweet none "sample post text" (some "@jane")).risk_level = "medium"
      ∧ (Sentinel.analyzeTweet none "sample post text" (some "@jane")).trust_score = 50
      ∧ ∃ pre post,
          (Sentinel.analyzeTweet none "sample post text" (some "@jane")).reasoning_summary
            = pre ++ strTake "sample post text" 50 ++ post)
    ∧ ((Sentinel.analyzeTweet (some { ok := false, body := none }) "sample post text"
          none).risk_level = "medium"
      ∧ (Sentinel.analyzeTweet (some { ok := false, body := none }) "sample post text"
          none).trust_score = 50
      ∧ ∃ pre post,
          (Sentinel.analyzeTweet (some { ok := false, body := none }) "sample post text"
            none).reasoning_summary = pre ++ strTake "sample post text" 50 ++ post) :=
  ⟨c9_backend_fallback none "sample post text" (some "@jane") (Or.inl rfl),
   c9_backend_fallback (some { ok := false, body := none }) "sample post text" none
     (Or.inr ⟨{ ok := false, body := none }, rfl, rfl⟩)⟩

/-- C10: the handle produced by extractUserInfo is always either null or a
string that begins with the at sign — at-prefixed spans are kept verbatim
and handles derived from a profile link path get the at sign prepended. -/
theorem c10_handle_shape (v : Option UserNameView) :
    (extractUserInfo v).handle = none
    ∨ ∃ s, (extractUserInfo v).handle = some s ∧ strStartsWith s "@" = true := by
  rcases v with _ | u
  · left; rfl
  · unfold extractUserInfo
    simp only
    have hfold :
        (u.spans.foldl spanStep { displayName := none, handle := none }).handle = none
        ∨ ∃ s, (u.spans.foldl spanStep { displayName := none, handle := none }).handle
            = some s ∧ strStartsWith s "@" = true := by
      apply foldl_preserve spanStep
        (P := fun acc => acc.handle = none
          ∨ ∃ s, acc.handle = some s ∧ strStartsWith s "@" = true)
      · intro acc a hacc
        rw [spanStep_eq]
        split
        · exact hacc
        · split
          · next hsw => exact Or.inr ⟨strTrim a, rfl, hsw⟩
          · split
            · exact hacc
            · exact hacc
      · left; rfl
    rcases hnone : (u.spans.foldl spanStep { displayName := none, handle := none }).handle with
      _ | s
    · rw [if_pos rfl]
      rcases u.profileLinkHref with _ | href
      · left; exact hnone
      · simp only
        split
        · right
          exact ⟨"@" ++ strDrop href 1, rfl, strStartsWith_at _⟩
        · left; exact hnone
    · rw [if_neg (by simp [hnone])]
      rcases hfold with hf | ⟨s', hs', hsw⟩
      · rw [hnone] at hf; cases hf
      · right
        exact ⟨s', hs', hsw⟩

lemma lookup_cons {β : Type} (k a : Nat) (b : β) (es : List (Nat × β)) :
    List.lookup k ((a, b) :: es) = if k = a then some b else List.lookup k es := by
  by_cases h : k = a
  · simp [List.lookup, h]
  · have hb : (k == a) = false := by simp [h]
    simp [List.lookup, hb, h]

lemma lookup_append_or {β : Type} (l l' : List (Nat × β)) (k : Nat) :
    (l ++ l').lookup k =
      match l.lookup k with
      | some b => some b
      | none => l'.lookup k := by
  induction l with
  | nil => rfl
  | cons p ps ih =>
      rcases p with ⟨a, b⟩
      by_cases h : k = a
      · simp [lookup_cons, h]
      · simp only [List.cons_append, lookup_cons, if_neg h]
        exact ih

lemma lookup_append_left {β : Type} {l l' : List (Nat × β)} {k : Nat} {b : β}
    (h : l.lookup k = some b) : (l ++ l').lookup k = some b := by
  rw [lookup_append_or, h]

lemma lookup_append_none {β : Type} {l l' : List (Nat × β)} {k : Nat}
    (h : l.lookup k = none) : (l ++ l').lookup k = l'.lookup k := by
  rw [lookup_append_or, h]

lemma lookup_prefix_none {β : Type} {l l' : List (Nat × β)} {k : Nat}
    (h : (l ++ l').lookup k = none) : l.lookup k = none := by
  rcases hl : l.lookup k with _ | b
  · rfl
  · rw [lookup_append_left hl] at h
    cases h

lemma lookup_eq_none_iff {β : Type} (l : List (Nat × β)) (k : Nat) :
    l.lookup k = none ↔ k ∉ l.map Prod.fst := by
  induction l with
  | nil => simp
  | cons p ps ih =>
      rcases p with ⟨a, b⟩
      by_cases h : k = a
      · simp [lookup_cons, h]
      · simp [lookup_cons, h, ih]

lemma lookup_some_mem {β : Type} {l : List (Nat × β)} {k : Nat} {b : β}
    (h : l.lookup k = some b) : (k, b) ∈ l := by
  induction l with
  | nil => cases h
  | cons p ps ih =>
      rcases p with ⟨a, b'⟩
      by_cases hk : k = a
      · rw [lookup_cons, if_pos hk] at h
        cases h
        subst hk
        exact List.mem_cons_self _ _
      · rw [lookup_cons, if_neg hk] at h
        exact List.mem_cons_of_mem _ (ih h)

/-- C8 counterexample: on a post node whose like counter displays 0, the
mapping produced by extractMetrics does contain the likes key, bound to the
string 0 — the claim that the key is absent from the extraction mapping is
false; zero values are only filtered later, in the rendered metric list. -/
theorem c8_zero_metrics_counterexample :
    (extractMetrics
      { replyCount := none, retweetCount := none, likeCount := some (some "0")
        bookmarkCount := none, analyticsLink := none, actionGroup := none }).likes
      = some "0"
    ∧ (extractMetrics
      { replyCount := none, retweetCount := none, likeCount := some (some "0")
        bookmarkCount := none, analyticsLink := none, actionGroup := none }).likes
      ≠ none :=
  ⟨by decide, by decide⟩

/-- C8 amended: the extraction mapping itself may bind a metric to a zero
or empty display value, but the metric list rendered into the badge by
updateBadgeContent filters those out, so a metric appears in the rendered
badge only with a non-zero, non-empty display value. -/
theorem c8_zero_metrics_amended (mv : MetricsView) (lab v : String)
    (h : (lab, v) ∈ metricItems (extractMetrics mv)) :
    v ≠ "0" ∧ v ≠ "" := by
  unfold metricItems at h
  rw [List.mem_filterMap] at h
  obtain ⟨a, _, hfa⟩ := h
  rcases a with ⟨l0, v0⟩
  rcases v0 with _ | s
  · simp at hfa
  · simp only at hfa
    by_cases hc : s ≠ "" ∧ s ≠ "0" ∧ s ≠ ""
    · rw [if_pos hc] at hfa
      cases hfa
      exact ⟨hc.2.1, hc.1⟩
    · rw [if_neg hc] at hfa
      cases hfa

/-- C8 witness: a concrete extraction whose reply counter displays 12 and
whose like counter displays 0; the rendered list contains the replies entry
and the theorem yields its non-zero, non-empty value. -/
theorem c8_zero_metrics_witness :
    ("Replies", "12") ∈ metricItems (extractMetrics
      { replyCount := some (some "12"), retweetCount := none
        likeCount := some (some "0"), bookmarkCount := none
        analyticsLink := none, actionGroup := none })
    ∧ ("12" ≠ "0" ∧ "12" ≠ "") :=
  ⟨by decide,
   c8_zero_metrics_amended
     { replyCount := some (some "12"), retweetCount := none
       likeCount := some (some "0"), bookmarkCount := none
       analyticsLink := none, actionGroup := none } "Replies" "12" (by decide)⟩

/-- C7: the wrapped network primitives are transparent — for every request
the patched fetch returns to the host page exactly the outcome of the
unwrapped fetch (its rejection or its response object, unmodified), and the
patched XHR send delivers exactly the unwrapped outcome; the tap only
updates its captured-URL store, and a body whose JSON parse fails (the
modelled processing failure) is swallowed without altering the page-visible
result, for every store content and every response body. -/
theorem c7_tap_transparency :
    (∀ (origFetch : FetchInput → Except NetErr FetchResponse)
       (vids : List CapturedVid) (input : FetchInput),
       (wrappedFetch origFetch vids input).1 = origFetch input)
    ∧ (∀ (origSend : Except NetErr (Option JVal)) (vids : List CapturedVid)
       (st : XhrState),
       (wrappedXhrSend origSend vids st).1 = origSend) := by
  constructor
  · intro origFetch vids input
    unfold wrappedFetch
    split
    · next e heq => rw [heq]
    · next r heq => rw [heq]
  · intro origSend vids st
    rfl

lemma claimMany_spec :
    ∀ (nodes : List Nat) (st : VideoState),
      nodes.Nodup →
      (∀ n ∈ nodes, st.assigned.lookup n = none) →
      nodes.length ≤ st.captured.length →
      claimMany nodes st =
        { captured := st.captured.drop nodes.length
          assigned := st.assigned ++ nodes.zip (st.captured.take nodes.length) } := by
  intro nodes
  induction nodes with
  | nil =>
      intro st _ _ _
      simp [claimMany]
  | cons n rest ih =>
      intro st hnd hfresh hlen
      rcases hc : st.captured with _ | ⟨u, cr⟩
      · rw [hc] at hlen
        simp at hlen
      · have hfn : st.assigned.lookup n = none := hfresh n (List.mem_cons_self n rest)
        have hstep : (extractVideoUrl { hasVideoPlayer := true, id := n } st).2
            = { captured := cr, assigned := st.assigned ++ [(n, u)] } := by
          simp [extractVideoUrl, hfn, hc]
        have hcm : claimMany (n :: rest) st
            = claimMany rest { captured := cr, assigned := st.assigned ++ [(n, u)] } := by
          simp only [claimMany, List.foldl_cons, hstep]
        rw [hcm,
          ih { captured := cr, assigned := st.assigned ++ [(n, u)] }
            (List.Nodup.of_cons hnd)
            (by
              intro m hm
              have hmn : m ≠ n := by
                intro he
                subst he
                exact (List.nodup_cons.mp hnd).1 hm
              have : st.assigned.lookup m = none := hfresh m (List.mem_cons_of_mem n hm)
              rw [lookup_append_none this, lookup_cons, if_neg hmn]
              rfl)
            (by
              rw [hc] at hlen
              simpa using hlen)]
        simp [List.zip_cons_cons, List.append_assoc]

/-- C4: claiming from the captured-media queue is a dequeue, at most once
per URL.  When the queue holds URLs with pairwise distinct canonical forms
and M not-yet-assigned video nodes each claim one (M at most the queue
length), exactly M URLs leave the queue, the rest remain for future nodes
in order, the nodes are assigned the first M URLs in order with no two
nodes sharing one; and the producer-side store evicts its oldest entry
first when a push overflows the 100-entry capacity. -/
theorem c4_queue_claims (st : VideoState) (nodes : List Nat)
    (hn : nodes.Nodup)
    (hfresh : ∀ n ∈ nodes, st.assigned.lookup n = none)
    (hlen : nodes.length ≤ st.captured.length)
    (hcanon : (st.captured.map canonicalize).Nodup) :
    (claimMany nodes st).captured = st.captured.drop nodes.length
    ∧ (claimMany nodes st).captured.length = st.captured.length - nodes.length
    ∧ (claimMany nodes st).assigned
        = st.assigned ++ nodes.zip (st.captured.take nodes.length)
    ∧ ((nodes.zip (st.captured.take nodes.length)).map Prod.snd).Nodup
    ∧ (∀ (vids : List CapturedVid) (best : String), vids.length = 100 →
        (∀ v ∈ vids, v.clean ≠ canonicalize best) →
        brVidsPush vids best
          = vids.drop 1 ++ [{ url := best, clean := canonicalize best }]) := by
  have hspec := claimMany_spec nodes st hn hfresh hlen
  refine ⟨?_, ?_, ?_, ?_, ?_⟩
  · rw [hspec]
  · rw [hspec]
    simp [List.length_drop]
  · rw [hspec]
  · have htk : (st.captured.take nodes.length).length = nodes.length := by
      rw [List.length_take]
      omega
    rw [List.map_snd_zip nodes (st.captured.take nodes.length) (by omega)]
    exact ((List.Nodup.of_map canonicalize hcanon).sublist
      (List.take_sublist nodes.length st.captured))
  · intro vids best hlen100 hnew
    have hany : vids.any (fun v => v.clean == canonicalize best) = false := by
      rw [List.any_eq_false]
      intro v hv
      simpa using hnew v hv
    simp only [brVidsPush, hany, Bool.false_eq_true, if_false]
    rw [if_pos (by simp [hlen100])]
    rw [List.drop_append_of_le_length (by omega)]

/-- C4 witness: three captured URLs with distinct canonical forms and two
fresh video nodes — the claims dequeue the first two URLs, one remains —
together with a concrete overflowing push on a full 100-entry store. -/
theorem c4_queue_claims_witness :
    ((claimMany [10, 20] { captured := ["a", "b?x", "c"], assigned := [] }).captured = ["c"]
    ∧ (claimMany [10, 20] { captured := ["a", "b?x", "c"], assigned := [] }).assigned
        = [(10, "a"), (20, "b?x")]
    ∧ brVidsPush (List.replicate 100 { url := "u", clean := "u" }) "w"
        = (List.replicate 100 { url := "u", clean := "u" }).drop 1
            ++ [{ url := "w", clean := canonicalize "w" }]) := by
  have h := c4_queue_claims { captured := ["a", "b?x", "c"], assigned := [] } [10, 20]
    (by decide) (by decide) (by decide) (by decide)
  refine ⟨?_, ?_, ?_⟩
  · rw [h.1]
    rfl
  · rw [h.2.2.1]
    rfl
  · exact h.2.2.2.2 (List.replicate 100 { url := "u", clean := "u" }) "w"
      (by simp) (by
        intro v hv
        have := List.eq_of_mem_replicate hv
        subst this
        decide)

lemma createBadge_cases (doc : Document) (st : ScanState) (t : Nat) :
    (createBadge doc st t = st
      ∧ (st.enabled = false ∨ ∃ bb, st.badges.lookup t = some bb))
    ∨ (createBadge doc st t = { st with pending := setInsert t st.pending }
        ∧ st.enabled = true ∧ st.badges.lookup t = none
        ∧ extractTweetText (docView doc t) = none)
    ∨ (createBadge doc st t
        = { st with
            badges := st.badges ++ [(t, st.nextId)]
            overlays := st.overlays ++ [st.nextId]
            nextId := st.nextId + 1 }
        ∧ st.enabled = true ∧ st.badges.lookup t = none
        ∧ ∃ r, extractTweetText (docView doc t) = some r) := by
  unfold createBadge
  by_cases he : st.enabled = false
  · rw [if_pos he]
    exact Or.inl ⟨rfl, Or.inl he⟩
  · rw [if_neg he]
    have he' : st.enabled = true := by
      revert he
      cases st.enabled <;> simp
    rcases hl : st.badges.lookup t with _ | bb
    · rcases hx : extractTweetText (docView doc t) with _ | r
      · exact Or.inr (Or.inl ⟨rfl, he', rfl, rfl⟩)
      · exact Or.inr (Or.inr ⟨rfl, he', rfl, r, rfl⟩)
    · exact Or.inl ⟨rfl, Or.inr ⟨bb, rfl⟩⟩

lemma mem_setInsert_self (x : Nat) (s : List Nat) : x ∈ setInsert x s := by
  unfold setInsert
  split
  · assumption
  · simp

lemma mem_setInsert_of_mem {x : Nat} {s : List Nat} (y : Nat) (h : x ∈ s) :
    x ∈ setInsert y s := by
  unfold setInsert
  split
  · exact h
  · exact List.mem_append_left _ h

lemma setInsert_nodup {s : List Nat} (x : Nat) (h : s.Nodup) :
    (setInsert x s).Nodup := by
  unfold setInsert
  split
  · exact h
  · next hx =>
      rw [List.nodup_append]
      refine ⟨h, by simp, ?_⟩
      intro a ha hb
      simp at hb
      subst hb
      exact hx ha

lemma not_mem_setInsert {x y : Nat} {s : List Nat} (hne : x ≠ y) (h : x ∉ s) :
    x ∉ setInsert y s := by
  unfold setInsert
  split
  · exact h
  · intro hm
    rcases List.mem_append.mp hm with hm | hm
    · exact h hm
    · simp at hm
      exact hne hm

/-- Well-formedness of the overlay bookkeeping: the attached badge elements
are pairwise distinct and each is older than the fresh-identity counter. -/
def WFov (st : ScanState) : Prop :=
  st.overlays.Nodup ∧ ∀ i ∈ st.overlays, i < st.nextId

/-- The way one scan-side step may change the registry: badges are only
appended, each appended entry has a key that was unmapped before and brings
exactly its own freshly attached overlay, key distinctness is preserved,
and the overlay bookkeeping stays well formed. -/
def ScanExt (s s' : ScanState) : Prop :=
  (∃ new, s'.badges = s.badges ++ new
    ∧ s'.overlays = s.overlays ++ new.map Prod.snd
    ∧ ∀ p ∈ new, s.badges.lookup p.1 = none)
  ∧ ((s.badges.map Prod.fst).Nodup → (s'.badges.map Prod.fst).Nodup)
  ∧ (WFov s → WFov s')

lemma scanExt_rfl (s : ScanState) : ScanExt s s :=
  ⟨⟨[], by simp, by simp, by simp⟩, id, id⟩

lemma scanExt_trans {s t u : ScanState} (h1 : ScanExt s t) (h2 : ScanExt t u) :
    ScanExt s u := by
  obtain ⟨⟨n1, hb1, ho1, hf1⟩, hn1, hw1⟩ := h1
  obtain ⟨⟨n2, hb2, ho2, hf2⟩, hn2, hw2⟩ := h2
  refine ⟨⟨n1 ++ n2, ?_, ?_, ?_⟩, fun h => hn2 (hn1 h), fun h => hw2 (hw1 h)⟩
  · rw [hb2, hb1, List.append_assoc]
  · rw [ho2, ho1, List.map_append, List.append_assoc]
  · intro p hp
    rcases List.mem_append.mp hp with hp | hp
    · exact hf1 p hp
    · have := hf2 p hp
      rw [hb1] at this
      exact lookup_prefix_none this

lemma createBadge_scanExt (doc : Document) (st : ScanState) (t : Nat) :
    ScanExt st (createBadge doc st t) := by
  rcases createBadge_cases doc st t with ⟨he, _⟩ | ⟨he, _⟩ | ⟨he, _, hl, _⟩
  · rw [he]
    exact scanExt_rfl st
  · rw [he]
    exact ⟨⟨[], by simp, by simp, by simp⟩, id, id⟩
  · rw [he]
    refine ⟨⟨[(t, st.nextId)], rfl, rfl, ?_⟩, ?_, ?_⟩
    · intro p hp
      simp only [List.mem_singleton] at hp
      subst hp
      exact hl
    · intro hnd
      have ht : t ∉ st.badges.map Prod.fst := (lookup_eq_none_iff _ _).mp hl
      simp only [List.map_append, List.map_cons, List.map_nil]
      rw [List.nodup_append]
      refine ⟨hnd, by simp, ?_⟩
      intro a ha hb
      simp at hb
      subst hb
      exact ht ha
    · rintro ⟨hndov, hbound⟩
      constructor
      · rw [List.nodup_append]
        refine ⟨hndov, by simp, ?_⟩
        intro a ha hb
        simp at hb
        subst hb
        exact absurd (hbound _ ha) (by omega)
      · intro i hi
        rcases List.mem_append.mp hi with hi | hi
        · have := hbound i hi
          simp only
          omega
        · simp at hi
          subst hi
          simp only
          omega

lemma pendingStep_scanExt (doc : Document) (s : ScanState) (t : Nat) :
    ScanExt s (pendingStep doc s t) := by
  unfold pendingStep
  split
  · exact createBadge_scanExt doc s t
  · exact ⟨⟨[], by simp, by simp, by simp⟩, id, id⟩

lemma foldl_scanExt {α : Type} (f : ScanState → α → ScanState)
    (hf : ∀ s a, ScanExt s (f s a)) :
    ∀ (l : List α) (s : ScanState), ScanExt s (l.foldl f s) := by
  intro l
  induction l with
  | nil => intro s; exact scanExt_rfl s
  | cons c cs ih => intro s; exact scanExt_trans (hf s c) (ih (f s c))

lemma scanTweets_scanExt (doc : Document) (st : ScanState) :
    ScanExt st (scanTweets doc st) := by
  unfold scanTweets
  split
  · exact scanExt_rfl st
  · dsimp only
    split
    · exact scanExt_trans
        (foldl_scanExt _ (fun s a => createBadge_scanExt doc s a) _ st)
        (foldl_scanExt _ (fun s a => pendingStep_scanExt doc s a) _ _)
    · exact foldl_scanExt _ (fun s a => createBadge_scanExt doc s a) _ st

/-- C1: with no change to the document, a repeated scan pass produces no
second badge for any already-mapped node — the node keeps exactly its one
badge (duplicate detection being the already-mapped lookup in createBadge),
and every overlay element attached during the repeated scan belongs to some
other, previously unmapped node. -/
theorem c1_scan_idempotent (doc : Document) (st0 : ScanState) (n b : Nat)
    (h0 : (st0.badges.map Prod.fst).Nodup)
    (hb : ((scanTweets doc st0).badges).lookup n = some b) :
    ((scanTweets doc (scanTweets doc st0)).badges).lookup n = some b
    ∧ List.count n ((scanTweets doc (scanTweets doc st0)).badges.map Prod.fst) = 1
    ∧ ∃ new, (scanTweets doc (scanTweets doc st0)).badges
          = (scanTweets doc st0).badges ++ new
        ∧ (scanTweets doc (scanTweets doc st0)).overlays
            = (scanTweets doc st0).overlays ++ new.map Prod.snd
        ∧ ∀ p ∈ new, p.1 ≠ n := by
  obtain ⟨_, hnd1, _⟩ := scanTweets_scanExt doc st0
  obtain ⟨⟨new, hbnew, honew, hfresh⟩, hnd2, _⟩ :=
    scanTweets_scanExt doc (scanTweets doc st0)
  have hlook : ((scanTweets doc (scanTweets doc st0)).badges).lookup n = some b := by
    rw [hbnew]
    exact lookup_append_left hb
  refine ⟨hlook, ?_, new, hbnew, honew, ?_⟩
  · exact List.count_eq_one_of_mem (hnd2 (hnd1 h0))
      (List.mem_map_of_mem Prod.fst (lookup_some_mem hlook))
  · intro p hp he
    have hno := hfresh p hp
    rw [he, hb] at hno
    cases hno

/-- C1 witness: one tweet with text; the first scan maps it to badge 0 and
the second scan keeps exactly that badge. -/
theorem c1_scan_idempotent_witness :
    ((scanTweets { tweets := [(0, { tweetTextEl := some "hi", langSpans := [] })] }
        (scanTweets { tweets := [(0, { tweetTextEl := some "hi", langSpans := [] })] }
          { enabled := true, badges := [], pending := [], overlays := [], nextId := 0 })).badges).lookup 0
      = some 0
    ∧ List.count 0
        ((scanTweets { tweets := [(0, { tweetTextEl := some "hi", langSpans := [] })] }
          (scanTweets { tweets := [(0, { tweetTextEl := some "hi", langSpans := [] })] }
            { enabled := true, badges := [], pending := [], overlays := [], nextId := 0 })).badges.map
          Prod.fst) = 1 :=
  ⟨(c1_scan_idempotent { tweets := [(0, { tweetTextEl := some "hi", langSpans := [] })] }
      { enabled := true, badges := [], pending := [], overlays := [], nextId := 0 } 0 0
      (by decide) (by decide)).1,
   (c1_scan_idempotent { tweets := [(0, { tweetTextEl := some "hi", langSpans := [] })] }
      { enabled := true, badges := [], pending := [], overlays := [], nextId := 0 } 0 0
      (by decide) (by decide)).2.1⟩

lemma lookup_none_filter {l : List (Nat × Nat)} {n : Nat} (p : Nat × Nat → Bool)
    (h : l.lookup n = none) : (l.filter p).lookup n = none := by
  rw [lookup_eq_none_iff] at h ⊢
  intro hm
  obtain ⟨q, hq, hqe⟩ := List.mem_map.mp hm
  exact h (List.mem_map.mpr ⟨q, List.mem_of_mem_filter hq, hqe⟩)

lemma updStep_preserves_removed (doc : Document) {n b : Nat} :
    ∀ (s : ScanState) (p : Nat × Nat),
      (s.badges.lookup n = none ∧ b ∉ s.overlays) →
      ((updStep doc s p).badges.lookup n = none ∧ b ∉ (updStep doc s p).overlays) := by
  intro s p hs
  unfold updStep
  split
  · refine ⟨lookup_none_filter _ hs.1, ?_⟩
    intro hmem
    exact hs.2 (List.mem_of_mem_erase hmem)
  · exact hs

lemma updStep_nodup_overlays (doc : Document) :
    ∀ (s : ScanState) (p : Nat × Nat),
      s.overlays.Nodup → (updStep doc s p).overlays.Nodup := by
  intro s p h
  unfold updStep
  split
  · exact h.erase _
  · exact h

lemma updatePositions_removes (doc : Document) (st1 : ScanState) (n b : Nat)
    (hnodup : st1.overlays.Nodup)
    (hmem : (n, b) ∈ st1.badges)
    (hn : docContains doc n = false) :
    (updatePositions doc st1).badges.lookup n = none
    ∧ b ∉ (updatePositions doc st1).overlays := by
  unfold updatePositions
  obtain ⟨l1, l2, hsplit⟩ := List.append_of_mem hmem
  rw [hsplit, List.foldl_append, List.foldl_cons]
  have hmidnodup : (List.foldl (updStep doc) st1 l1).overlays.Nodup :=
    foldl_preserve (updStep doc) (updStep_nodup_overlays doc) l1 st1 hnodup
  have hmid :
      (updStep doc (List.foldl (updStep doc) st1 l1) (n, b)).badges.lookup n = none
      ∧ b ∉ (updStep doc (List.foldl (updStep doc) st1 l1) (n, b)).overlays := by
    unfold updStep
    rw [if_pos hn]
    constructor
    · rw [lookup_eq_none_iff]
      intro hm
      obtain ⟨q, hq, hqe⟩ := List.mem_map.mp hm
      have hvq := List.of_mem_filter hq
      simp only [decide_eq_true_eq] at hvq
      exact hvq hqe
    · exact List.Nodup.not_mem_erase hmidnodup
  exact foldl_preserve (updStep doc) (updStep_preserves_removed doc) l2 _ hmid

/-- C2: for a tracked node that is no longer contained in the live
document, one mutation-callback unit — a scan pass followed by the
position-update and eviction sweep — removes its badge element from the
attached overlays and deletes its entry from the registry mapping. -/
theorem c2_eviction (doc : Document) (st : ScanState) (n b : Nat)
    (hwf : WFov st)
    (hb : st.badges.lookup n = some b)
    (hn : docContains doc n = false) :
    (mutationCallback doc st).badges.lookup n = none
    ∧ b ∉ (mutationCallback doc st).overlays := by
  obtain ⟨⟨new, hbnew, _, _⟩, _, hwf1⟩ := scanTweets_scanExt doc st
  have hb1 : (scanTweets doc st).badges.lookup n = some b := by
    rw [hbnew]
    exact lookup_append_left hb
  exact updatePositions_removes doc (scanTweets doc st) n b (hwf1 hwf).1
    (lookup_some_mem hb1) hn

/-- C2 witness: a tracked node (badge element 5) whose source node is gone
from the document; the mutation callback deletes the mapping and detaches
the element. -/
theorem c2_eviction_witness :
    (mutationCallback { tweets := [] }
      { enabled := true, badges := [(0, 5)], pending := [], overlays := [5],
        nextId := 6 }).badges.lookup 0 = none
    ∧ 5 ∉ (mutationCallback { tweets := [] }
      { enabled := true, badges := [(0, 5)], pending := [], overlays := [5],
        nextId := 6 }).overlays :=
  c2_eviction { tweets := [] }
    { enabled := true, badges := [(0, 5)], pending := [], overlays := [5], nextId := 6 }
    0 5 (by constructor <;> decide) (by decide) (by decide)

/-- C3 counterexample: Retry-Set membership does not end when a later
extraction succeeds.  A node scanned while textless enters pendingRetry;
after the text appears, a scan creates its badge, yet the node is still in
pendingRetry (createBadge never deletes it on success).  Also, an
already-mapped node whose extraction yields no text is not added to
pendingRetry, so membership is not exactly characterised by failed
extraction either. -/
theorem c3_retry_counterexample :
    (0 ∈ (scanTweets { tweets := [(0, { tweetTextEl := some "hello", langSpans := [] })] }
        (scanTweets { tweets := [(0, { tweetTextEl := none, langSpans := [] })] }
          { enabled := true, badges := [], pending := [], overlays := [],
            nextId := 0 })).pending
      ∧ (scanTweets { tweets := [(0, { tweetTextEl := some "hello", langSpans := [] })] }
          (scanTweets { tweets := [(0, { tweetTextEl := none, langSpans := [] })] }
            { enabled := true, badges := [], pending := [], overlays := [],
              nextId := 0 })).badges.lookup 0 = some 0
      ∧ extractTweetText
          (docView { tweets := [(0, { tweetTextEl := some "hello", langSpans := [] })] } 0)
          ≠ none)
    ∧ (extractTweetText
        (docView { tweets := [(1, { tweetTextEl := none, langSpans := [] })] } 1) = none
      ∧ docContains { tweets := [(1, { tweetTextEl := none, langSpans := [] })] } 1 = true
      ∧ 1 ∉ (scanTweets { tweets := [(1, { tweetTextEl := none, langSpans := [] })] }
          { enabled := true, badges := [(1, 7)], pending := [], overlays := [7],
            nextId := 8 }).pending) := by
  refine ⟨⟨by decide, by decide, by decide⟩, by decide, by decide, by decide⟩

lemma createBadge_pending_mono (doc : Document) {n : Nat} :
    ∀ (s : ScanState) (t : Nat), n ∈ s.pending → n ∈ (createBadge doc s t).pending := by
  intro s t h
  rcases createBadge_cases doc s t with ⟨he, _⟩ | ⟨he, _⟩ | ⟨he, _⟩
  · rw [he]; exact h
  · rw [he]; exact mem_setInsert_of_mem _ h
  · rw [he]; exact h

lemma createBadge_pending_nodup (doc : Document) :
    ∀ (s : ScanState) (t : Nat), s.pending.Nodup → (createBadge doc s t).pending.Nodup := by
  intro s t h
  rcases createBadge_cases doc s t with ⟨he, _⟩ | ⟨he, _⟩ | ⟨he, _⟩
  · rw [he]; exact h
  · rw [he]; exact setInsert_nodup _ h
  · rw [he]; exact h

lemma pendingStep_pending_of_contains (doc : Document) {n : Nat}
    (hcont : docContains doc n = true) :
    ∀ (s : ScanState) (t : Nat), n ∈ s.pending → n ∈ (pendingStep doc s t).pending := by
  intro s t h
  unfold pendingStep
  split
  · exact createBadge_pending_mono doc s t h
  · next hc =>
      have hne : n ≠ t := by
        intro he
        subst he
        exact hc hcont
      exact (List.mem_erase_of_ne hne).mpr h

lemma pendingStep_pending_nodup (doc : Document) :
    ∀ (s : ScanState) (t : Nat), s.pending.Nodup → (pendingStep doc s t).pending.Nodup := by
  intro s t h
  unfold pendingStep
  split
  · exact createBadge_pending_nodup doc s t h
  · exact h.erase _

lemma c3_pending_added (doc : Document) (st : ScanState) (n : Nat)
    (hen : st.enabled = true) (hmem : n ∈ getTopLevelTweets doc)
    (hlook : st.badges.lookup n = none)
    (hext : extractTweetText (docView doc n) = none) :
    n ∈ (scanTweets doc st).pending := by
  have hcont : docContains doc n = true := decide_eq_true hmem
  unfold scanTweets
  rw [if_neg (by simp [hen])]
  dsimp only
  obtain ⟨l1, l2, hsplit⟩ := List.append_of_mem hmem
  rw [hsplit]
  have hQ1 : n ∈ (List.foldl (createBadge doc) st (l1 ++ n :: l2)).pending := by
    rw [List.foldl_append, List.foldl_cons]
    have hP := foldl_preserve (createBadge doc)
      (P := fun s => s.enabled = true ∧ (n ∈ s.pending ∨ s.badges.lookup n = none))
      (by
        intro s t hp
        rcases createBadge_cases doc s t with ⟨he, _⟩ | ⟨he, _⟩ | ⟨he, _, _, r, hr⟩
        · rw [he]; exact hp
        · rw [he]
          refine ⟨hp.1, ?_⟩
          rcases hp.2 with h | h
          · exact Or.inl (mem_setInsert_of_mem _ h)
          · exact Or.inr h
        · rw [he]
          refine ⟨hp.1, ?_⟩
          rcases hp.2 with h | h
          · exact Or.inl h
          · refine Or.inr ?_
            by_cases htn : t = n
            · subst htn
              rw [hext] at hr
              cases hr
            · show (s.badges ++ [(t, s.nextId)]).lookup n = none
              rw [lookup_append_none h, lookup_cons, if_neg (fun hh => htn hh.symm)]
              rfl)
      l1 st ⟨hen, Or.inr hlook⟩
    have hQmid :
        n ∈ (createBadge doc (List.foldl (createBadge doc) st l1) n).pending := by
      rcases createBadge_cases doc (List.foldl (createBadge doc) st l1) n with
        ⟨he, hr⟩ | ⟨he, _⟩ | ⟨he, _, _, r, hr⟩
      · rw [he]
        rcases hr with hf | ⟨bb, hbb⟩
        · rw [hP.1] at hf; cases hf
        · rcases hP.2 with h | h
          · exact h
          · rw [h] at hbb; cases hbb
      · rw [he]; exact mem_setInsert_self _ _
      · rw [hext] at hr; cases hr
    exact foldl_preserve (createBadge doc)
      (fun s t h => createBadge_pending_mono doc s t h) l2 _ hQmid
  rw [if_pos (List.length_pos.mpr (List.ne_nil_of_mem hQ1))]
  exact foldl_preserve (pendingStep doc)
    (fun s t h => pendingStep_pending_of_contains doc hcont s t h) _ _ hQ1

lemma c3_pending_persists (doc : Document) (st : ScanState) (n : Nat)
    (hmem : n ∈ st.pending) (hcont : docContains doc n = true) :
    n ∈ (scanTweets doc st).pending := by
  unfold scanTweets
  by_cases he : st.enabled = false
  · rw [if_pos he]; exact hmem
  · rw [if_neg he]
    dsimp only
    have h1 : n ∈ (List.foldl (createBadge doc) st
        (getTopLevelTweets doc)).pending :=
      foldl_preserve _ (fun s t h => createBadge_pending_mono doc s t h) _ st hmem
    split
    · exact foldl_preserve (pendingStep doc)
        (fun s t h => pendingStep_pending_of_contains doc hcont s t h) _ _ h1
    · exact h1

lemma c3_pending_removed (doc : Document) (st : ScanState) (n : Nat)
    (hen : st.enabled = true) (hnodup : st.pending.Nodup)
    (hmem : n ∈ st.pending) (hncont : docContains doc n = false) :
    n ∉ (scanTweets doc st).pending := by
  unfold scanTweets
  rw [if_neg (by simp [hen])]
  dsimp only
  have h1 := foldl_preserve (createBadge doc)
    (P := fun s => n ∈ s.pending ∧ s.pending.Nodup)
    (fun s t hp => ⟨createBadge_pending_mono doc s t hp.1,
      createBadge_pending_nodup doc s t hp.2⟩)
    (getTopLevelTweets doc) st ⟨hmem, hnodup⟩
  rw [if_pos (List.length_pos.mpr (List.ne_nil_of_mem h1.1))]
  obtain ⟨l1, l2, hsplit⟩ := List.append_of_mem h1.1
  rw [hsplit, List.foldl_append, List.foldl_cons]
  have hT : (List.foldl (pendingStep doc)
      (List.foldl (createBadge doc) st (getTopLevelTweets doc)) l1).pending.Nodup :=
    foldl_preserve _ (fun s t h => pendingStep_pending_nodup doc s t h) l1 _ h1.2
  have hU : n ∉ (pendingStep doc (List.foldl (pendingStep doc)
      (List.foldl (createBadge doc) st (getTopLevelTweets doc)) l1) n).pending := by
    unfold pendingStep
    rw [if_neg (by simp [hncont])]
    exact List.Nodup.not_mem_erase hT
  have hl2ne : ∀ t ∈ l2, t ≠ n := by
    have hnd := h1.2
    rw [hsplit, List.nodup_middle] at hnd
    intro t ht he
    subst he
    exact (List.nodup_cons.mp hnd).1 (List.mem_append_right _ ht)
  exact foldl_preserve_mem (pendingStep doc) (P := fun s => n ∉ s.pending) l2 _
    (fun s t htmem hu => by
      unfold pendingStep
      split
      · rcases createBadge_cases doc s t with ⟨he2, _⟩ | ⟨he2, _⟩ | ⟨he2, _⟩
        · rw [he2]; exact hu
        · rw [he2]; exact not_mem_setInsert (Ne.symm (hl2ne t htmem)) hu
        · rw [he2]; exact hu
      · intro hmem2
        exact hu (List.mem_of_mem_erase hmem2))
    hU

/-- C3 amended: after a scan pass, every top-level node that is not yet
mapped and whose extraction yields no text is in the Retry Set; Retry-Set
membership ends only on confirmed removal from the document — a member
still contained in the document stays a member across scans even when its
extraction has succeeded, and a member confirmed gone is removed. -/
theorem c3_retry_amended :
    (∀ (doc : Document) (st : ScanState) (n : Nat),
      st.enabled = true → n ∈ getTopLevelTweets doc →
      st.badges.lookup n = none →
      extractTweetText (docView doc n) = none →
      n ∈ (scanTweets doc st).pending)
    ∧ (∀ (doc : Document) (st : ScanState) (n : Nat),
      n ∈ st.pending → docContains doc n = true →
      n ∈ (scanTweets doc st).pending)
    ∧ (∀ (doc : Document) (st : ScanState) (n : Nat),
      st.enabled = true → st.pending.Nodup →
      n ∈ st.pending → docContains doc n = false →
      n ∉ (scanTweets doc st).pending) :=
  ⟨c3_pending_added, c3_pending_persists, c3_pending_removed⟩

/-- C3 witness: the amended Retry-Set facts at concrete states — a fresh
textless node is added; a pending node still contained stays pending; a
pending node gone from the document is removed. -/
theorem c3_retry_witness :
    (0 ∈ (scanTweets { tweets := [(0, { tweetTextEl := none, langSpans := [] })] }
      { enabled := true, badges := [], pending := [], overlays := [],
        nextId := 0 }).pending)
    ∧ (0 ∈ (scanTweets { tweets := [(0, { tweetTextEl := none, langSpans := [] })] }
      { enabled := true, badges := [], pending := [0], overlays := [],
        nextId := 0 }).pending)
    ∧ (0 ∉ (scanTweets { tweets := [] }
      { enabled := true, badges := [], pending := [0], overlays := [],
        nextId := 0 }).pending) :=
  ⟨c3_retry_amended.1 { tweets := [(0, { tweetTextEl := none, langSpans := [] })] }
      { enabled := true, badges := [], pending := [], overlays := [], nextId := 0 }
      0 (by decide) (by decide) (by decide) (by decide),
   c3_retry_amended.2.1 { tweets := [(0, { tweetTextEl := none, langSpans := [] })] }
      { enabled := true, badges := [], pending := [0], overlays := [], nextId := 0 }
      0 (by decide) (by decide),
   c3_retry_amended.2.2 { tweets := [] }
      { enabled := true, badges := [], pending := [0], overlays := [], nextId := 0 }
      0 (by decide) (by decide) (by decide) (by decide)⟩
